import Mathlib

/-!
A shallow embedding of `storjrpcudp/protocol.py` (class `RPCProtocol`):
a minimal RPC transport over UDP datagrams.  Frames are `1 tag byte +
20-byte correlation ID + msgpack payload`; the engine keeps a pending-call
table keyed by correlation ID, with a scheduled timeout per outstanding
call.

Bytes are modelled as `Nat` (values < 256 on real frames), byte strings
as `List Nat`.  The external msgpack codec (`umsgpack`) is modelled from
the spec as the standard msgpack encoding of the value subset the engine
moves (nil, bool, int, str, bin, array); strings are modelled at ASCII
granularity (one byte per char).  Side effects (logging, datagram sends,
deferred resolution, timer scheduling/cancellation) are reified as an
effect list; exceptions escaping to the reactor are an `Except.error`.
-/

/-- A decoded msgpack value (the subset of `umsgpack` types the engine moves). -/
inductive MsgVal : Type where
  | nil : MsgVal
  | bool (b : Bool) : MsgVal
  | int (n : Int) : MsgVal
  | str (s : String) : MsgVal
  | bin (b : List Nat) : MsgVal
  | arr (l : List MsgVal) : MsgVal

mutual
/-- Decidable equality for `MsgVal` (deriving cannot handle the nested `List`). -/
def MsgVal.decEq : (a b : MsgVal) → Decidable (a = b)
  | .nil, .nil => isTrue rfl
  | .nil, .bool _ => isFalse fun h => nomatch h
  | .nil, .int _ => isFalse fun h => nomatch h
  | .nil, .str _ => isFalse fun h => nomatch h
  | .nil, .bin _ => isFalse fun h => nomatch h
  | .nil, .arr _ => isFalse fun h => nomatch h
  | .bool _, .nil => isFalse fun h => nomatch h
  | .bool a, .bool b =>
    if h : a = b then isTrue (congrArg MsgVal.bool h)
    else isFalse fun he => h (MsgVal.bool.inj he)
  | .bool _, .int _ => isFalse fun h => nomatch h
  | .bool _, .str _ => isFalse fun h => nomatch h
  | .bool _, .bin _ => isFalse fun h => nomatch h
  | .bool _, .arr _ => isFalse fun h => nomatch h
  | .int _, .nil => isFalse fun h => nomatch h
  | .int _, .bool _ => isFalse fun h => nomatch h
  | .int a, .int b =>
    if h : a = b then isTrue (congrArg MsgVal.int h)
    else isFalse fun he => h (MsgVal.int.inj he)
  | .int _, .str _ => isFalse fun h => nomatch h
  | .int _, .bin _ => isFalse fun h => nomatch h
  | .int _, .arr _ => isFalse fun h => nomatch h
  | .str _, .nil => isFalse fun h => nomatch h
  | .str _, .bool _ => isFalse fun h => nomatch h
  | .str _, .int _ => isFalse fun h => nomatch h
  | .str a, .str b =>
    if h : a = b then isTrue (congrArg MsgVal.str h)
    else isFalse fun he => h (MsgVal.str.inj he)
  | .str _, .bin _ => isFalse fun h => nomatch h
  | .str _, .arr _ => isFalse fun h => nomatch h
  | .bin _, .nil => isFalse fun h => nomatch h
  | .bin _, .bool _ => isFalse fun h => nomatch h
  | .bin _, .int _ => isFalse fun h => nomatch h
  | .bin _, .str _ => isFalse fun h => nomatch h
  | .bin a, .bin b =>
    if h : a = b then isTrue (congrArg MsgVal.bin h)
    else isFalse fun he => h (MsgVal.bin.inj he)
  | .bin _, .arr _ => isFalse fun h => nomatch h
  | .arr _, .nil => isFalse fun h => nomatch h
  | .arr _, .bool _ => isFalse fun h => nomatch h
  | .arr _, .int _ => isFalse fun h => nomatch h
  | .arr _, .str _ => isFalse fun h => nomatch h
  | .arr _, .bin _ => isFalse fun h => nomatch h
  | .arr a, .arr b =>
    match MsgVal.decEqList a b with
    | isTrue h => isTrue (congrArg MsgVal.arr h)
    | isFalse h => isFalse fun he => h (MsgVal.arr.inj he)

/-- Decidable equality for lists of `MsgVal`. -/
def MsgVal.decEqList : (as bs : List MsgVal) → Decidable (as = bs)
  | [], [] => isTrue rfl
  | [], _ :: _ => isFalse fun h => nomatch h
  | _ :: _, [] => isFalse fun h => nomatch h
  | a :: as, b :: bs =>
    match MsgVal.decEq a b, MsgVal.decEqList as bs with
    | isTrue h1, isTrue h2 => isTrue (by rw [h1, h2])
    | isFalse h1, _ => isFalse fun he => h1 (List.head_eq_of_cons_eq he)
    | _, isFalse h2 => isFalse fun he => h2 (List.tail_eq_of_cons_eq he)
end

instance : DecidableEq MsgVal := MsgVal.decEq

deriving instance DecidableEq for Except

/-- Big-endian encoding of `n` in exactly `k` bytes (mod 2^(8k)). -/
def beBytes : Nat → Nat → List Nat
  | 0, _ => []
  | k + 1, n => n / 256 ^ k % 256 :: beBytes k n

/-- Modelled from the spec: msgpack integer encoding as `umsgpack` performs it
(nonnegative values use the unsigned forms).  Integers outside the 64-bit
ranges do not occur in this development; they fall to the int64 branch mod 2^64. -/
def packInt (n : Int) : List Nat :=
  if 0 ≤ n then
    if n < 128 then [n.toNat]
    else if n < 256 then [0xcc, n.toNat]
    else if n < 65536 then 0xcd :: beBytes 2 n.toNat
    else if n < 4294967296 then 0xce :: beBytes 4 n.toNat
    else 0xcf :: beBytes 8 n.toNat
  else
    if -32 ≤ n then [(n + 256).toNat]
    else if -128 ≤ n then [0xd0, (n + 256).toNat]
    else if -32768 ≤ n then 0xd1 :: beBytes 2 (n + 65536).toNat
    else if -2147483648 ≤ n then 0xd2 :: beBytes 4 (n + 4294967296).toNat
    else 0xd3 :: beBytes 8 (n % 18446744073709551616).toNat

/-- Modelled from the spec: msgpack header for a str of byte length `len`. -/
def strHeader (len : Nat) : List Nat :=
  if len < 32 then [0xa0 + len]
  else if len < 256 then [0xd9, len]
  else if len < 65536 then 0xda :: beBytes 2 len
  else 0xdb :: beBytes 4 len

/-- Modelled from the spec: msgpack header for a bin of byte length `len`. -/
def binHeader (len : Nat) : List Nat :=
  if len < 256 then [0xc4, len]
  else if len < 65536 then 0xc5 :: beBytes 2 len
  else 0xc6 :: beBytes 4 len

/-- Modelled from the spec: msgpack header for an array of `len` elements. -/
def arrHeader (len : Nat) : List Nat :=
  if len < 16 then [0x90 + len]
  else if len < 65536 then 0xdc :: beBytes 2 len
  else 0xdd :: beBytes 4 len

mutual
/-- Modelled from the spec: `umsgpack.packb`, the external wire codec's encoder,
on the engine's value subset (ASCII strings encoded one byte per char). -/
def packb : MsgVal → List Nat
  | .nil => [0xc0]
  | .bool false => [0xc2]
  | .bool true => [0xc3]
  | .int n => packInt n
  | .str s => strHeader s.length ++ s.data.map Char.toNat
  | .bin b => binHeader b.length ++ b
  | .arr l => arrHeader l.length ++ packList l

/-- Encoder for the elements of a msgpack array, in order. -/
def packList : List MsgVal → List Nat
  | [] => []
  | v :: vs => packb v ++ packList vs
end

/-- Splits off exactly `n` bytes, failing when fewer are available
(`umsgpack` raises `InsufficientDataException` there). -/
def takeExact (n : Nat) (bs : List Nat) : Option (List Nat × List Nat) :=
  if n ≤ bs.length then some (bs.take n, bs.drop n) else none

/-- Big-endian value of a byte list. -/
def fromBE (bs : List Nat) : Nat :=
  bs.foldl (fun a b => a * 256 + b) 0

mutual
/-- Modelled from the spec: `umsgpack`'s decoder for one msgpack value, with
fuel bounding recursion depth; returns the value and the remaining bytes. -/
def parseVal : Nat → List Nat → Option (MsgVal × List Nat)
  | 0, _ => none
  | _ + 1, [] => none
  | fuel + 1, b :: rest =>
    if b ≤ 0x7f then some (.int b, rest)
    else if 0xe0 ≤ b ∧ b ≤ 0xff then some (.int ((b : Int) - 256), rest)
    else if 0xa0 ≤ b ∧ b ≤ 0xbf then
      (takeExact (b - 0xa0) rest).map fun p =>
        (.str (String.mk (p.1.map Char.ofNat)), p.2)
    else if 0x90 ≤ b ∧ b ≤ 0x9f then
      (parseList fuel (b - 0x90) rest).map fun p => (.arr p.1, p.2)
    else if b = 0xc0 then some (.nil, rest)
    else if b = 0xc2 then some (.bool false, rest)
    else if b = 0xc3 then some (.bool true, rest)
    else if b = 0xc4 then do
      let (len, r1) ← takeExact 1 rest
      let (body, r2) ← takeExact (fromBE len) r1
      some (.bin body, r2)
    else if b = 0xc5 then do
      let (len, r1) ← takeExact 2 rest
      let (body, r2) ← takeExact (fromBE len) r1
      some (.bin body, r2)
    else if b = 0xc6 then do
      let (len, r1) ← takeExact 4 rest
      let (body, r2) ← takeExact (fromBE len) r1
      some (.bin body, r2)
    else if b = 0xcc then do
      let (v, r1) ← takeExact 1 rest
      some (.int (fromBE v), r1)
    else if b = 0xcd then do
      let (v, r1) ← takeExact 2 rest
      some (.int (fromBE v), r1)
    else if b = 0xce then do
      let (v, r1) ← takeExact 4 rest
      some (.int (fromBE v), r1)
    else if b = 0xcf then do
      let (v, r1) ← takeExact 8 rest
      some (.int (fromBE v), r1)
    else if b = 0xd0 then do
      let (v, r1) ← takeExact 1 rest
      some (.int ((fromBE v : Int) - 256), r1)
    else if b = 0xd1 then do
      let (v, r1) ← takeExact 2 rest
      some (.int ((fromBE v : Int) - 65536), r1)
    else if b = 0xd2 then do
      let (v, r1) ← takeExact 4 rest
      some (.int ((fromBE v : Int) - 4294967296), r1)
    else if b = 0xd3 then do
      let (v, r1) ← takeExact 8 rest
      let u : Nat := fromBE v
      some (.int (if u < 9223372036854775808 then (u : Int)
                  else (u : Int) - 18446744073709551616), r1)
    else if b = 0xd9 then do
      let (len, r1) ← takeExact 1 rest
      let (body, r2) ← takeExact (fromBE len) r1
      some (.str (String.mk (body.map Char.ofNat)), r2)
    else if b = 0xda then do
      let (len, r1) ← takeExact 2 rest
      let (body, r2) ← takeExact (fromBE len) r1
      some (.str (String.mk (body.map Char.ofNat)), r2)
    else if b = 0xdb then do
      let (len, r1) ← takeExact 4 rest
      let (body, r2) ← takeExact (fromBE len) r1
      some (.str (String.mk (body.map Char.ofNat)), r2)
    else if b = 0xdc then do
      let (len, r1) ← takeExact 2 rest
      (parseList fuel (fromBE len) r1).map fun p => (.arr p.1, p.2)
    else if b = 0xdd then do
      let (len, r1) ← takeExact 4 rest
      (parseList fuel (fromBE len) r1).map fun p => (.arr p.1, p.2)
    else none

/-- Decoder for `count` consecutive msgpack values (array elements). -/
def parseList : Nat → Nat → List Nat → Option (List MsgVal × List Nat)
  | 0, _, _ => none
  | _ + 1, 0, bs => some ([], bs)
  | fuel + 1, count + 1, bs => do
    let (v, r1) ← parseVal fuel bs
    let (vs, r2) ← parseList fuel count r1
    some (v :: vs, r2)
end

/-- Modelled from the spec: `umsgpack.unpackb` — decode a single msgpack value
from the byte string; `none` models the decode exceptions `umsgpack` raises.
Trailing bytes after the first value are ignored, as in `umsgpack.unpackb`. -/
def unpackb (bs : List Nat) : Option MsgVal :=
  (parseVal (bs.length + 1) bs).map Prod.fst

/-- A correlation ID: `datagram[1:21]`, 20 opaque bytes on real frames. -/
def MsgID := List Nat
deriving DecidableEq

/-- Exceptions the protocol code can raise to whatever drives the engine. -/
inductive RPCError : Type where
  /-- `MalformedMessage` from `storjrpcudp.exceptions`. -/
  | malformedMessage (s : String) : RPCError
  /-- an `umsgpack` decode exception escaping `unpackb`. -/
  | decodeError : RPCError
  /-- Python `KeyError` from indexing a dict at a missing key. -/
  | keyError : RPCError
  /-- Python `TypeError` from `*args` on a non-iterable. -/
  | typeError : RPCError
deriving DecidableEq

/-- Observable side effects of one engine entry point, in program order.
Strings passed to the logger are abbreviated (addresses and base64 IDs are
not rendered); only the fact and order of logging matters here. -/
inductive Effect : Type where
  | logMsg (s : String) : Effect
  | logErr (s : String) : Effect
  /-- `send_all(data, address)`: a datagram handed to the resilient send path. -/
  | send (data : List Nat) (addr : String) : Effect
  /-- `d.callback((ok, val))` on the deferred with handle `d`. -/
  | resolve (d : Nat) (ok : Bool) (val : Option MsgVal) : Effect
  /-- `timeout.cancel()` on the scheduled timer with handle `t`. -/
  | cancelTimer (t : Nat) : Effect
  /-- `reactor.callLater(delay, self._timeout, msgID)` returning handle `t`. -/
  | scheduleTimer (t : Nat) (m : MsgID) (delay : Nat) : Effect
deriving DecidableEq

/-- The mutable state of one `RPCProtocol` instance.  `_outstanding` maps a
correlation ID to `(deferred handle, timer handle)`; deferreds and timers are
named by `Nat` handles drawn from the fresh counters. -/
structure ProtoState : Type where
  waitTimeout : Nat
  outstanding : List (MsgID × Nat × Nat)
  nextDeferred : Nat
  nextTimer : Nat
deriving DecidableEq

/-- `self._outstanding[msgID]` as a lookup (first match; keys stay distinct). -/
def lookupO (tbl : List (MsgID × Nat × Nat)) (m : MsgID) : Option (Nat × Nat) :=
  match tbl with
  | [] => none
  | (k, v) :: rest => if k = m then some v else lookupO rest m

/-- `del self._outstanding[msgID]`. -/
def eraseO (tbl : List (MsgID × Nat × Nat)) (m : MsgID) : List (MsgID × Nat × Nat) :=
  tbl.filter fun e => decide (e.1 ≠ m)

/-- `self._outstanding[msgID] = v` (dict assignment overwrites). -/
def insertO (tbl : List (MsgID × Nat × Nat)) (m : MsgID) (v : Nat × Nat) :
    List (MsgID × Nat × Nat) :=
  (m, v) :: eraseO tbl m

/-- The handler registry: `getattr(self, "rpc_" + name)` over the `rpc_`
methods the application defined on its protocol subclass.  A handler takes
the sender address and the unpacked argument list; `maybeDeferred` is
modelled synchronously: `Except.ok` is the callback value, `Except.error`
the failure the errback receives. -/
def Registry : Type := String → Option (String → List MsgVal → Except String MsgVal)

/-- Python `"%s" % v` on a decoded value, as used to form `"rpc_%s" % funcname`.
Only `str` keys can realistically name a registered method; non-string reprs
are abbreviated. -/
def pyStr : MsgVal → String
  | .str s => s
  | .int n => toString n
  | .bool true => "True"
  | .bool false => "False"
  | .nil => "None"
  | .bin _ => "bytes-repr"
  | .arr _ => "list-repr"

/-- Python `f(address, *args)` argument unpacking: which decoded values are
iterable, and what elements they yield. -/
def starIterate : MsgVal → Option (List MsgVal)
  | .arr l => some l
  | .str s => some (s.data.map fun c => .str (String.mk [c]))
  | .bin b => some (b.map fun n => .int n)
  | _ => none

/-- `RPCProtocol._sendResponse`: frame the handler's result as a response
reusing the request's correlation ID and hand it to `send_all`. -/
def sendResponse (response : MsgVal) (msgID : MsgID) (addr : String) : List Effect :=
  [.send (3 :: msgID ++ packb response) addr]

/-- `RPCProtocol._acceptRequest`: check the `[name, args]` shape (raising
`MalformedMessage` otherwise), look up `rpc_<name>` (log and drop when
absent), invoke the handler, and on success send a response via
`_sendResponse`; a handler failure is logged by the errback `_onError`. -/
def acceptRequest (reg : Registry) (st : ProtoState) (msgID : MsgID) (data : MsgVal)
    (addr : String) : Except RPCError (ProtoState × List Effect) :=
  match data with
  | .arr [funcname, args] =>
    match reg (pyStr funcname) with
    | none => .ok (st, [.logErr "no callable method; ignoring request"])
    | some f =>
      match starIterate args with
      | none => .error .typeError
      | some argList =>
        match f addr argList with
        | .ok response => .ok (st, sendResponse response msgID addr)
        | .error e => .ok (st, [.logErr e])
  | _ => .error (.malformedMessage "Could not read packet")

/-- `RPCProtocol._acceptResponse`: match the correlation ID against the
pending-call table; unmatched IDs are logged and dropped, a match cancels
the timer, resolves the deferred with `(True, data)` and deletes the entry. -/
def acceptResponse (st : ProtoState) (msgID : MsgID) (data : MsgVal) :
    Except RPCError (ProtoState × List Effect) :=
  match lookupO st.outstanding msgID with
  | none => .ok (st, [.logErr "received unknown message; ignoring"])
  | some (d, t) =>
    .ok ({ st with outstanding := eraseO st.outstanding msgID },
         [.cancelTimer t, .resolve d true (some data)])

/-- `RPCProtocol._timeout`: log, resolve the deferred with `(False, None)`
and delete the entry.  Indexing `self._outstanding[msgID]` at a missing key
is a Python `KeyError`. -/
def timeoutFire (st : ProtoState) (msgID : MsgID) :
    Except RPCError (ProtoState × List Effect) :=
  match lookupO st.outstanding msgID with
  | none => .error .keyError
  | some (d, _) =>
    .ok ({ st with outstanding := eraseO st.outstanding msgID },
         [.logErr "Did not received reply within the wait window",
          .resolve d false none])

/-- `RPCProtocol.datagramReceived`: drop datagrams under 22 bytes, split off
`msgID = datagram[1:21]`, unpack the payload (decode failures escape to the
reactor), then dispatch on the tag byte; unknown tags are logged and dropped. -/
def datagramReceived (reg : Registry) (st : ProtoState) (datagram : List Nat)
    (addr : String) : Except RPCError (ProtoState × List Effect) :=
  if datagram.length < 22 then
    .ok (st, [.logMsg "received datagram too small, ignoring"])
  else
    let msgID := (datagram.drop 1).take 20
    match unpackb (datagram.drop 21) with
    | none => .error .decodeError
    | some data =>
      if datagram.take 1 = [2] then acceptRequest reg st msgID data addr
      else if datagram.take 1 = [3] then acceptResponse st msgID data
      else .ok (st, [.logMsg "Received unknown message, ignoring"])

/-- The body of the callable `RPCProtocol.__getattr__` builds for a remote
method name: pack `[name, args]`, raise `MalformedMessage` when the encoding
exceeds 8192 bytes, otherwise frame and send the request, create a deferred,
schedule the timeout and store the pending entry.  The 20-byte `msgID`
(`sha1(os.urandom(32)).digest()`) is a parameter; the deferred and timer
handles come from the fresh counters.  Returns the deferred's handle. -/
def callRemote (st : ProtoState) (name : String) (addr : String)
    (args : List MsgVal) (msgID : MsgID) :
    Except RPCError (ProtoState × List Effect × Nat) :=
  let data := packb (.arr [.str name, .arr args])
  if data.length > 8192 then
    .error (.malformedMessage
      "Total length of function name and arguments cannot exceed 8K")
  else
    let d := st.nextDeferred
    let t := st.nextTimer
    .ok ({ st with
            outstanding := insertO st.outstanding msgID (d, t),
            nextDeferred := d + 1,
            nextTimer := t + 1 },
         [.send (2 :: msgID ++ data) addr, .scheduleTimer t msgID st.waitTimeout],
         d)

/-- Outcome of one `transport.write` attempt inside `send_all`:
success, or `socket.error` with the given `errno`. -/
inductive SendResult : Type where
  | ok : SendResult
  | err (errno : Nat) : SendResult
deriving DecidableEq

/-- Overall outcome of `RPCProtocol.send_all`. -/
inductive SendOutcome : Type where
  /-- `transport.write` succeeded and the loop broke. -/
  | sent : SendOutcome
  /-- the `while time.time() < future` window elapsed; the loop exits
  silently and the datagram is never sent. -/
  | dropped : SendOutcome
  /-- a `socket.error` with an errno other than 11/10055 was re-raised. -/
  | fatal (errno : Nat) : SendOutcome
deriving DecidableEq

/-- `RPCProtocol.send_all`: retry `transport.write` until success, a fatal
error, or the window elapses.  Time is shallowly embedded as the finite list
of attempt outcomes the window admits (each transient failure costs a 1 ms
sleep); an exhausted list is the window elapsing. -/
def send_all (attempts : List SendResult) : SendOutcome :=
  match attempts with
  | [] => .dropped
  | .ok :: _ => .sent
  | .err e :: rest =>
    if e = 11 ∨ e = 10055 then send_all rest else .fatal e

/-- The engine plus its twisted environment: the reactor's scheduled (not yet
fired, not cancelled) timers, and the observable histories — resolutions
delivered to deferreds, datagrams handed to the send path, log lines. -/
structure World : Type where
  proto : ProtoState
  timers : List (Nat × MsgID)
  resolutions : List (Nat × Bool × Option MsgVal)
  sends : List (List Nat × String)
  logs : List String
deriving DecidableEq

/-- Interpret one effect against the environment. -/
def World.applyEffect (w : World) (e : Effect) : World :=
  match e with
  | .logMsg s => { w with logs := w.logs ++ [s] }
  | .logErr s => { w with logs := w.logs ++ [s] }
  | .send data addr => { w with sends := w.sends ++ [(data, addr)] }
  | .resolve d ok v => { w with resolutions := w.resolutions ++ [(d, ok, v)] }
  | .cancelTimer t => { w with timers := w.timers.filter fun p => decide (p.1 ≠ t) }
  | .scheduleTimer t m _ => { w with timers := w.timers ++ [(t, m)] }

/-- Interpret an effect list in program order. -/
def World.applyEffects (w : World) (es : List Effect) : World :=
  es.foldl World.applyEffect w

/-- A freshly constructed `RPCProtocol(waitTimeout)` in a quiet reactor. -/
def World.init (wt : Nat) : World :=
  { proto := { waitTimeout := wt, outstanding := [], nextDeferred := 0, nextTimer := 0 },
    timers := [], resolutions := [], sends := [], logs := [] }

/-- One outbound call step: run `callRemote` and interpret its effects.
Also returns the deferred handle given back to the caller. -/
def wCall (w : World) (name : String) (addr : String) (args : List MsgVal)
    (msgID : MsgID) : Except RPCError (World × Nat) :=
  match callRemote w.proto name addr args msgID with
  | .error e => .error e
  | .ok (st, effs, d) => .ok (World.applyEffects { w with proto := st } effs, d)

/-- One datagram-delivery step: run `datagramReceived` and interpret its
effects. -/
def wDeliver (reg : Registry) (w : World) (datagram : List Nat) (addr : String) :
    Except RPCError World :=
  match datagramReceived reg w.proto datagram addr with
  | .error e => .error e
  | .ok (st, effs) => .ok (World.applyEffects { w with proto := st } effs)

/-- One timer-firing step by the reactor.  A handle that is not scheduled —
cancelled, or already consumed — never runs (`DelayedCall` semantics), so
firing it is a no-op.  A scheduled handle is consumed and its `_timeout`
callback runs. -/
def wFire (w : World) (t : Nat) : Except RPCError World :=
  match w.timers.find? fun p => decide (p.1 = t) with
  | none => .ok w
  | some (_, m) =>
    let w1 := { w with timers := w.timers.filter fun p => decide (p.1 ≠ t) }
    match timeoutFire w1.proto m with
    | .error e => .error e
    | .ok (st, effs) => .ok (World.applyEffects { w1 with proto := st } effs)

/-- Worlds reachable by the engine under one fixed handler registry.  The
`call` step carries the spec's treat-IDs-as-unique assumption: the fresh
`sha1(os.urandom(32))` ID is 20 bytes and does not collide with a currently
outstanding entry.  Steps that raise leave the world unchanged (the reactor
logs the escaped exception), so only `.ok` steps appear. -/
inductive Reachable (reg : Registry) : World → Prop where
  | init (wt : Nat) : Reachable reg (World.init wt)
  | call {w w' : World} {name addr : String} {args : List MsgVal} {msgID : MsgID}
      {d : Nat} :
      Reachable reg w →
      msgID.length = 20 →
      lookupO w.proto.outstanding msgID = none →
      wCall w name addr args msgID = .ok (w', d) →
      Reachable reg w'
  | deliver {w w' : World} {datagram : List Nat} {addr : String} :
      Reachable reg w →
      wDeliver reg w datagram addr = .ok w' →
      Reachable reg w'
  | fire {w w' : World} {t : Nat} :
      Reachable reg w →
      wFire w t = .ok w' →
      Reachable reg w'

/-- The engine's correlation invariant: outstanding entries have 20-byte IDs,
distinct keys, distinct unresolved deferreds below the fresh counter, and
exactly their own timers scheduled; every scheduled timer belongs to the
entry it would fire for; resolutions never repeat a deferred. -/
def EngineInv (w : World) : Prop :=
  (w.proto.outstanding.map fun e => e.1).Nodup ∧
  (w.proto.outstanding.map fun e => e.2.1).Nodup ∧
  (w.timers.map fun p => p.1).Nodup ∧
  (w.resolutions.map fun r => r.1).Nodup ∧
  (∀ e ∈ w.proto.outstanding,
      e.1.length = 20 ∧
      (e.2.2, e.1) ∈ w.timers ∧
      e.2.1 ∉ w.resolutions.map (fun r => r.1) ∧
      e.2.1 < w.proto.nextDeferred ∧
      e.2.2 < w.proto.nextTimer) ∧
  (∀ p ∈ w.timers,
      (lookupO w.proto.outstanding p.2).map (fun v => v.2) = some p.1) ∧
  (∀ r ∈ w.resolutions, r.1 < w.proto.nextDeferred)

theorem lookupO_some_mem {tbl : List (MsgID × Nat × Nat)} {m : MsgID}
    {v : Nat × Nat} (h : lookupO tbl m = some v) : (m, v) ∈ tbl := by
  induction tbl with
  | nil => simp [lookupO] at h
  | cons e rest ih =>
    rw [lookupO] at h
    by_cases hk : e.1 = m
    · rw [if_pos hk] at h
      have hv : e.2 = v := Option.some.inj h
      have he : e = (m, v) := by
        cases e
        cases hk
        cases hv
        rfl
      rw [← he]
      exact List.mem_cons_self _ _
    · rw [if_neg hk] at h
      exact List.mem_cons_of_mem _ (ih h)

theorem lookupO_eq_none {tbl : List (MsgID × Nat × Nat)} {m : MsgID}
    (h : ∀ e ∈ tbl, e.1 ≠ m) : lookupO tbl m = none := by
  induction tbl with
  | nil => rfl
  | cons e rest ih =>
    rw [lookupO, if_neg (h e (List.mem_cons_self _ _))]
    exact ih fun x hx => h x (List.mem_cons_of_mem _ hx)

theorem lookupO_none_not_mem {tbl : List (MsgID × Nat × Nat)} {m : MsgID}
    (h : lookupO tbl m = none) : m ∉ tbl.map fun e => e.1 := by
  induction tbl with
  | nil => simp
  | cons e rest ih =>
    rw [lookupO] at h
    by_cases hk : e.1 = m
    · simp [hk] at h
    · simp [hk] at h
      simp [hk, ih h]
      intro hc
      exact hk hc.symm

theorem mem_eraseO {tbl : List (MsgID × Nat × Nat)} {m : MsgID}
    {e : MsgID × Nat × Nat} : e ∈ eraseO tbl m ↔ e ∈ tbl ∧ e.1 ≠ m := by
  simp [eraseO, List.mem_filter]

theorem eraseO_sublist (tbl : List (MsgID × Nat × Nat)) (m : MsgID) :
    (eraseO tbl m).Sublist tbl :=
  List.filter_sublist tbl

theorem lookupO_eraseO_self (tbl : List (MsgID × Nat × Nat)) (m : MsgID) :
    lookupO (eraseO tbl m) m = none :=
  lookupO_eq_none fun _ he => (mem_eraseO.mp he).2

theorem eraseO_cons_of_eq {rest : List (MsgID × Nat × Nat)}
    {e : MsgID × Nat × Nat} {m : MsgID} (hk : e.1 = m) :
    eraseO (e :: rest) m = eraseO rest m := by
  simp [eraseO, List.filter_cons, hk]

theorem eraseO_cons_of_ne {rest : List (MsgID × Nat × Nat)}
    {e : MsgID × Nat × Nat} {m : MsgID} (hk : e.1 ≠ m) :
    eraseO (e :: rest) m = e :: eraseO rest m := by
  simp [eraseO, List.filter_cons, hk]

theorem lookupO_eraseO_ne {tbl : List (MsgID × Nat × Nat)} {m m' : MsgID}
    (h : m' ≠ m) : lookupO (eraseO tbl m) m' = lookupO tbl m' := by
  induction tbl with
  | nil => rfl
  | cons e rest ih =>
    by_cases hk : e.1 = m
    · have hne : e.1 ≠ m' := by
        rw [hk]
        exact fun hc => h hc.symm
      rw [eraseO_cons_of_eq hk, lookupO, if_neg hne]
      exact ih
    · rw [eraseO_cons_of_ne hk, lookupO, lookupO]
      by_cases hk' : e.1 = m'
      · rw [if_pos hk', if_pos hk']
      · rw [if_neg hk', if_neg hk']
        exact ih

theorem eraseO_of_not_mem {tbl : List (MsgID × Nat × Nat)} {m : MsgID}
    (h : m ∉ tbl.map fun e => e.1) : eraseO tbl m = tbl := by
  apply List.filter_eq_self.mpr
  intro e he
  simp only [decide_eq_true_eq]
  intro hc
  exact h (List.mem_map.mpr ⟨e, he, hc⟩)

theorem lookupO_insertO_self (tbl : List (MsgID × Nat × Nat)) (m : MsgID)
    (v : Nat × Nat) : lookupO (insertO tbl m v) m = some v := by
  simp [insertO, lookupO]

theorem lookupO_insertO_ne {tbl : List (MsgID × Nat × Nat)} {m m' : MsgID}
    (v : Nat × Nat) (h : m' ≠ m) :
    lookupO (insertO tbl m v) m' = lookupO tbl m' := by
  have : m ≠ m' := fun hc => h hc.symm
  simp [insertO, lookupO, this, lookupO_eraseO_ne h]

theorem lookupO_of_mem_nodup {tbl : List (MsgID × Nat × Nat)}
    {e : MsgID × Nat × Nat} (hd : (tbl.map fun x => x.1).Nodup)
    (he : e ∈ tbl) : lookupO tbl e.1 = some e.2 := by
  induction tbl with
  | nil => simp at he
  | cons x rest ih =>
    simp only [List.map_cons, List.nodup_cons] at hd
    rcases List.mem_cons.mp he with h1 | h1
    · rw [h1, lookupO, if_pos rfl]
    · rw [lookupO]
      have hne : x.1 ≠ e.1 := by
        intro hc
        exact hd.1 (List.mem_map.mpr ⟨e, h1, hc.symm⟩)
      rw [if_neg hne]
      exact ih hd.2 h1

@[simp]
theorem applyEffects_nil (w : World) : World.applyEffects w [] = w := rfl

@[simp]
theorem applyEffects_cons (w : World) (e : Effect) (es : List Effect) :
    World.applyEffects w (e :: es) =
      World.applyEffects (World.applyEffect w e) es := rfl

@[simp]
theorem applyEffect_logMsg (w : World) (s : String) :
    World.applyEffect w (.logMsg s) = { w with logs := w.logs ++ [s] } := rfl

@[simp]
theorem applyEffect_logErr (w : World) (s : String) :
    World.applyEffect w (.logErr s) = { w with logs := w.logs ++ [s] } := rfl

@[simp]
theorem applyEffect_send (w : World) (data : List Nat) (addr : String) :
    World.applyEffect w (.send data addr) =
      { w with sends := w.sends ++ [(data, addr)] } := rfl

@[simp]
theorem applyEffect_resolve (w : World) (d : Nat) (ok : Bool) (v : Option MsgVal) :
    World.applyEffect w (.resolve d ok v) =
      { w with resolutions := w.resolutions ++ [(d, ok, v)] } := rfl

@[simp]
theorem applyEffect_cancelTimer (w : World) (t : Nat) :
    World.applyEffect w (.cancelTimer t) =
      { w with timers := w.timers.filter fun p => decide (p.1 ≠ t) } := rfl

@[simp]
theorem applyEffect_scheduleTimer (w : World) (t : Nat) (m : MsgID) (delay : Nat) :
    World.applyEffect w (.scheduleTimer t m delay) =
      { w with timers := w.timers ++ [(t, m)] } := rfl

theorem strHeader_ne_nil (len : Nat) : strHeader len ≠ [] := by
  rw [strHeader]
  split
  · simp
  · split
    · simp
    · split <;> simp

theorem binHeader_ne_nil (len : Nat) : binHeader len ≠ [] := by
  rw [binHeader]
  split
  · simp
  · split <;> simp

theorem arrHeader_ne_nil (len : Nat) : arrHeader len ≠ [] := by
  rw [arrHeader]
  split
  · simp
  · split <;> simp

theorem packInt_ne_nil (n : Int) : packInt n ≠ [] := by
  rw [packInt]
  split
  · split
    · simp
    · split
      · simp
      · split
        · simp
        · split <;> simp
  · split
    · simp
    · split
      · simp
      · split
        · simp
        · split <;> simp

theorem packb_ne_nil (v : MsgVal) : packb v ≠ [] := by
  cases v with
  | nil => simp [packb]
  | bool b => cases b <;> simp [packb]
  | int n => exact packInt_ne_nil n
  | str s => simp [packb, strHeader_ne_nil]
  | bin b => simp [packb, binHeader_ne_nil]
  | arr l => simp [packb, arrHeader_ne_nil]

theorem packb_length_pos (v : MsgVal) : 1 ≤ (packb v).length := by
  have := packb_ne_nil v
  cases h : packb v with
  | nil => exact absurd h this
  | cons a as => simp

theorem unpackb_ne_nil {bs : List Nat} {v : MsgVal} (h : unpackb bs = some v) :
    bs ≠ [] := by
  intro hc
  rw [hc] at h
  simp [unpackb, parseVal] at h

theorem engineInv_congr {w w' : World} (hInv : EngineInv w)
    (hp : w'.proto = w.proto) (ht : w'.timers = w.timers)
    (hr : w'.resolutions = w.resolutions) : EngineInv w' := by
  rw [EngineInv, hp, ht, hr]
  exact hInv

theorem timer_lookup_of_inv {w : World} (hInv : EngineInv w) {p : Nat × MsgID}
    (hp : p ∈ w.timers) :
    ∃ d, lookupO w.proto.outstanding p.2 = some (d, p.1) := by
  obtain ⟨-, -, -, -, -, hTT, -⟩ := hInv
  have h := hTT p hp
  cases hl : lookupO w.proto.outstanding p.2 with
  | none => rw [hl] at h; simp at h
  | some v =>
    obtain ⟨v1, v2⟩ := v
    rw [hl] at h
    simp at h
    subst h
    exact ⟨v1, rfl⟩

theorem engineInv_remove {w : World} {m : MsgID} {d t : Nat}
    (hInv : EngineInv w) (hl : lookupO w.proto.outstanding m = some (d, t))
    (ok : Bool) (v : Option MsgVal) (S : List (List Nat × String))
    (L : List String) :
    EngineInv
      { proto := { waitTimeout := w.proto.waitTimeout,
                   outstanding := eraseO w.proto.outstanding m,
                   nextDeferred := w.proto.nextDeferred,
                   nextTimer := w.proto.nextTimer },
        timers := w.timers.filter fun p => decide (p.1 ≠ t),
        resolutions := w.resolutions ++ [(d, ok, v)],
        sends := S, logs := L } := by
  obtain ⟨hO1, hO2, hT, hR, hE, hTT, hRD⟩ := hInv
  have hmem : (m, (d, t)) ∈ w.proto.outstanding := lookupO_some_mem hl
  obtain ⟨h20, htm, hdR, hdN, htN⟩ := hE _ hmem
  refine ⟨?_, ?_, ?_, ?_, ?_, ?_, ?_⟩
  · exact hO1.sublist ((eraseO_sublist _ _).map _)
  · exact hO2.sublist ((eraseO_sublist _ _).map _)
  · exact hT.sublist ((List.filter_sublist _).map _)
  · rw [List.map_append]
    refine hR.append (by simp) ?_
    intro a ha hb
    simp at hb
    rw [hb] at ha
    exact hdR ha
  · intro e he
    rw [mem_eraseO] at he
    obtain ⟨heO, hem⟩ := he
    obtain ⟨e20, etm, edR, edN, etN⟩ := hE _ heO
    have het : e.2.2 ≠ t := by
      intro hc
      have hpe : (e.2.2, e.1) = (t, m) :=
        List.inj_on_of_nodup_map hT etm htm (by simpa using hc)
      exact hem (by simpa using congrArg Prod.snd hpe)
    refine ⟨e20, List.mem_filter.mpr ⟨etm, by simpa using het⟩, ?_, edN, etN⟩
    intro hc
    rw [List.map_append] at hc
    rcases List.mem_append.mp hc with h1 | h1
    · exact edR h1
    · simp at h1
      have hpe : e = (m, (d, t)) :=
        List.inj_on_of_nodup_map hO2 heO hmem (by simpa using h1)
      exact hem (by simpa using congrArg Prod.fst hpe)
  · intro p hp
    have hpT := List.mem_filter.mp hp
    have hpt : p.1 ≠ t := by simpa using hpT.2
    obtain ⟨d', hd'⟩ := timer_lookup_of_inv ⟨hO1, hO2, hT, hR, hE, hTT, hRD⟩ hpT.1
    have hpm : p.2 ≠ m := by
      intro hc
      rw [hc, hl] at hd'
      exact hpt (Prod.mk.inj (Option.some.inj hd')).2.symm
    simp only
    rw [lookupO_eraseO_ne hpm, hd']
    rfl
  · intro r hr
    rcases List.mem_append.mp hr with h1 | h1
    · exact hRD _ h1
    · simp at h1
      rw [h1]
      exact hdN

theorem engineInv_insert {w : World} {msgID : MsgID}
    (hInv : EngineInv w) (h20 : msgID.length = 20)
    (hfresh : lookupO w.proto.outstanding msgID = none)
    (S : List (List Nat × String)) (L : List String) :
    EngineInv
      { proto := { waitTimeout := w.proto.waitTimeout,
                   outstanding := insertO w.proto.outstanding msgID
                     (w.proto.nextDeferred, w.proto.nextTimer),
                   nextDeferred := w.proto.nextDeferred + 1,
                   nextTimer := w.proto.nextTimer + 1 },
        timers := w.timers ++ [(w.proto.nextTimer, msgID)],
        resolutions := w.resolutions,
        sends := S, logs := L } := by
  obtain ⟨hO1, hO2, hT, hR, hE, hTT, hRD⟩ := hInv
  have hnm : msgID ∉ w.proto.outstanding.map fun e => e.1 :=
    lookupO_none_not_mem hfresh
  have hins : insertO w.proto.outstanding msgID
      (w.proto.nextDeferred, w.proto.nextTimer) =
      (msgID, (w.proto.nextDeferred, w.proto.nextTimer)) :: w.proto.outstanding := by
    rw [insertO, eraseO_of_not_mem hnm]
  have htfresh : ∀ p ∈ w.timers, p.1 < w.proto.nextTimer := by
    intro p hp
    obtain ⟨d', hd'⟩ :=
      timer_lookup_of_inv ⟨hO1, hO2, hT, hR, hE, hTT, hRD⟩ hp
    have hmem : (p.2, (d', p.1)) ∈ w.proto.outstanding := lookupO_some_mem hd'
    exact (hE _ hmem).2.2.2.2
  refine ⟨?_, ?_, ?_, hR, ?_, ?_, ?_⟩
  · rw [hins, List.map_cons, List.nodup_cons]
    exact ⟨hnm, hO1⟩
  · rw [hins, List.map_cons, List.nodup_cons]
    refine ⟨?_, hO2⟩
    intro hc
    obtain ⟨e, he, heq⟩ := List.mem_map.mp hc
    exact absurd heq (Nat.ne_of_gt (hE _ he).2.2.2.1).symm
  · rw [List.map_append]
    refine hT.append (by simp) ?_
    intro a ha hb
    simp at hb
    rw [hb] at ha
    obtain ⟨p, hp, hpeq⟩ := List.mem_map.mp ha
    exact absurd hpeq (Nat.ne_of_lt (htfresh _ hp))
  · intro e he
    rw [hins] at he
    rcases List.mem_cons.mp he with h1 | h1
    · rw [h1]
      refine ⟨h20, List.mem_append_right _ (by simp), ?_, by simp, by simp⟩
      intro hc
      obtain ⟨r, hrR, hreq⟩ := List.mem_map.mp hc
      exact absurd hreq (Nat.ne_of_lt (hRD _ hrR))
    · obtain ⟨e20, etm, edR, edN, etN⟩ := hE _ h1
      exact ⟨e20, List.mem_append_left _ etm, edR,
        Nat.lt_succ_of_lt edN, Nat.lt_succ_of_lt etN⟩
  · intro p hp
    rcases List.mem_append.mp hp with h1 | h1
    · obtain ⟨d', hd'⟩ :=
        timer_lookup_of_inv ⟨hO1, hO2, hT, hR, hE, hTT, hRD⟩ h1
      have hpm : p.2 ≠ msgID := by
        intro hc
        rw [hc, hfresh] at hd'
        exact Option.noConfusion hd'
      simp only
      rw [lookupO_insertO_ne _ hpm, hd']
      rfl
    · simp at h1
      rw [h1]
      simp only
      rw [lookupO_insertO_self]
      rfl
  · intro r hr
    exact Nat.lt_succ_of_lt (hRD _ hr)

theorem callRemote_ok_inv {st : ProtoState} {name addr : String}
    {args : List MsgVal} {msgID : MsgID} {st' : ProtoState} {effs : List Effect}
    {d : Nat} (h : callRemote st name addr args msgID = .ok (st', effs, d)) :
    st' = { st with
              outstanding := insertO st.outstanding msgID
                (st.nextDeferred, st.nextTimer),
              nextDeferred := st.nextDeferred + 1,
              nextTimer := st.nextTimer + 1 } ∧
    effs = [.send (2 :: msgID ++ packb (.arr [.str name, .arr args])) addr,
            .scheduleTimer st.nextTimer msgID st.waitTimeout] ∧
    d = st.nextDeferred ∧
    (packb (.arr [.str name, .arr args])).length ≤ 8192 := by
  rw [callRemote] at h
  split at h
  · exact absurd h (by simp)
  · rename_i hle
    simp only [Except.ok.injEq, Prod.mk.injEq] at h
    exact ⟨h.1.symm, h.2.1.symm, h.2.2.symm, by omega⟩

theorem timeoutFire_none {st : ProtoState} {m : MsgID}
    (h : lookupO st.outstanding m = none) :
    timeoutFire st m = .error .keyError := by
  rw [timeoutFire, h]

theorem timeoutFire_some {st : ProtoState} {m : MsgID} {d t : Nat}
    (h : lookupO st.outstanding m = some (d, t)) :
    timeoutFire st m =
      .ok ({ st with outstanding := eraseO st.outstanding m },
           [.logErr "Did not received reply within the wait window",
            .resolve d false none]) := by
  rw [timeoutFire, h]

theorem acceptResponse_none {st : ProtoState} {m : MsgID} {data : MsgVal}
    (h : lookupO st.outstanding m = none) :
    acceptResponse st m data =
      .ok (st, [.logErr "received unknown message; ignoring"]) := by
  rw [acceptResponse, h]

theorem acceptResponse_some {st : ProtoState} {m : MsgID} {data : MsgVal}
    {d t : Nat} (h : lookupO st.outstanding m = some (d, t)) :
    acceptResponse st m data =
      .ok ({ st with outstanding := eraseO st.outstanding m },
           [.cancelTimer t, .resolve d true (some data)]) := by
  rw [acceptResponse, h]

theorem datagramReceived_ok_inv {reg : Registry} {st : ProtoState}
    {datagram : List Nat} {addr : String} {st' : ProtoState} {effs : List Effect}
    (h : datagramReceived reg st datagram addr = .ok (st', effs)) :
    (st' = st ∧
      ((∃ s, effs = [.logMsg s]) ∨ (∃ s, effs = [.logErr s]) ∨
       (∃ resp, 22 ≤ datagram.length ∧
          effs = [.send (3 :: (datagram.drop 1).take 20 ++ packb resp) addr]))) ∨
    (∃ d t data,
       lookupO st.outstanding ((datagram.drop 1).take 20) = some (d, t) ∧
       st' = { st with
                 outstanding := eraseO st.outstanding ((datagram.drop 1).take 20) } ∧
       effs = [.cancelTimer t, .resolve d true (some data)]) := by
  rw [datagramReceived] at h
  split at h
  · simp only [Except.ok.injEq, Prod.mk.injEq] at h
    exact Or.inl ⟨h.1.symm, Or.inl ⟨_, h.2.symm⟩⟩
  · rename_i hlen
    split at h
    · exact absurd h (by simp)
    · rename_i data hdata
      split at h
      · rw [acceptRequest.eq_def] at h
        split at h
        all_goals try exact Except.noConfusion h
        split at h
        · simp only [Except.ok.injEq, Prod.mk.injEq] at h
          exact Or.inl ⟨h.1.symm, Or.inr (Or.inl ⟨_, h.2.symm⟩)⟩
        · split at h
          · exact absurd h (by simp)
          · split at h
            · simp only [sendResponse, Except.ok.injEq, Prod.mk.injEq] at h
              exact Or.inl ⟨h.1.symm,
                Or.inr (Or.inr ⟨_, by omega, h.2.symm⟩)⟩
            · simp only [Except.ok.injEq, Prod.mk.injEq] at h
              exact Or.inl ⟨h.1.symm, Or.inr (Or.inl ⟨_, h.2.symm⟩)⟩
      · split at h
        · cases hl : lookupO st.outstanding ((datagram.drop 1).take 20) with
          | none =>
            rw [acceptResponse_none hl] at h
            simp only [Except.ok.injEq, Prod.mk.injEq] at h
            exact Or.inl ⟨h.1.symm, Or.inr (Or.inl ⟨_, h.2.symm⟩)⟩
          | some v =>
            obtain ⟨d, t⟩ := v
            rw [acceptResponse_some hl] at h
            simp only [Except.ok.injEq, Prod.mk.injEq] at h
            exact Or.inr ⟨d, t, data, rfl, h.1.symm, h.2.symm⟩
        · simp only [Except.ok.injEq, Prod.mk.injEq] at h
          exact Or.inl ⟨h.1.symm, Or.inl ⟨_, h.2.symm⟩⟩

theorem engineInv_wCall {w w' : World} {name addr : String} {args : List MsgVal}
    {msgID : MsgID} {d : Nat} (hInv : EngineInv w) (h20 : msgID.length = 20)
    (hfresh : lookupO w.proto.outstanding msgID = none)
    (hstep : wCall w name addr args msgID = .ok (w', d)) : EngineInv w' := by
  rw [wCall] at hstep
  cases hcr : callRemote w.proto name addr args msgID with
  | error e =>
    rw [hcr] at hstep
    exact absurd hstep (by simp)
  | ok res =>
    obtain ⟨st', effs, d'⟩ := res
    rw [hcr] at hstep
    obtain ⟨hst, heffs, -, -⟩ := callRemote_ok_inv hcr
    simp only [Except.ok.injEq, Prod.mk.injEq] at hstep
    rw [← hstep.1, hst, heffs]
    simp only [applyEffects_cons, applyEffects_nil, applyEffect_send,
      applyEffect_scheduleTimer]
    exact engineInv_insert hInv h20 hfresh _ _

theorem engineInv_wDeliver {reg : Registry} {w w' : World} {datagram : List Nat}
    {addr : String} (hInv : EngineInv w)
    (hstep : wDeliver reg w datagram addr = .ok w') : EngineInv w' := by
  rw [wDeliver] at hstep
  cases hdr : datagramReceived reg w.proto datagram addr with
  | error e =>
    rw [hdr] at hstep
    exact absurd hstep (by simp)
  | ok res =>
    obtain ⟨st', effs⟩ := res
    rw [hdr] at hstep
    simp only [Except.ok.injEq] at hstep
    rcases datagramReceived_ok_inv hdr with ⟨hst, hca⟩ | ⟨d, t, data, hl, hst, heffs⟩
    · rw [← hstep, hst]
      rcases hca with ⟨s, he⟩ | ⟨s, he⟩ | ⟨resp, -, he⟩ <;>
        rw [he] <;>
        simp only [applyEffects_cons, applyEffects_nil, applyEffect_logMsg,
          applyEffect_logErr, applyEffect_send] <;>
        exact engineInv_congr hInv rfl rfl rfl
    · rw [← hstep, hst, heffs]
      simp only [applyEffects_cons, applyEffects_nil, applyEffect_cancelTimer,
        applyEffect_resolve]
      exact engineInv_remove hInv hl true _ _ _

theorem engineInv_wFire {w w' : World} {t : Nat} (hInv : EngineInv w)
    (hstep : wFire w t = .ok w') : EngineInv w' := by
  rw [wFire] at hstep
  cases hfind : w.timers.find? fun p => decide (p.1 = t) with
  | none =>
    rw [hfind] at hstep
    simp only [Except.ok.injEq] at hstep
    rw [← hstep]
    exact hInv
  | some p =>
    obtain ⟨t', m⟩ := p
    rw [hfind] at hstep
    simp only [] at hstep
    have hpt : t' = t := by simpa using List.find?_some hfind
    have hmemT : (t', m) ∈ w.timers := List.mem_of_find?_eq_some hfind
    obtain ⟨d', hd'⟩ := timer_lookup_of_inv hInv hmemT
    have hd2 : lookupO w.proto.outstanding m = some (d', t') := by
      simpa using hd'
    rw [timeoutFire_some hd2] at hstep
    simp only [] at hstep
    simp only [applyEffects_cons, applyEffects_nil, applyEffect_logErr,
      applyEffect_resolve, Except.ok.injEq] at hstep
    rw [← hstep]
    rw [← hpt]
    exact engineInv_remove hInv hd2 false none _ _

theorem reachable_inv {reg : Registry} {w : World} (h : Reachable reg w) :
    EngineInv w := by
  induction h with
  | init wt =>
    refine ⟨by simp [World.init], by simp [World.init], by simp [World.init],
      by simp [World.init], ?_, ?_, ?_⟩ <;> simp [World.init]
  | call _ h20 hfresh hstep ih => exact engineInv_wCall ih h20 hfresh hstep
  | deliver _ hstep ih => exact engineInv_wDeliver ih hstep
  | fire _ hstep ih => exact engineInv_wFire ih hstep

theorem frame_msgID {tag : Nat} {m payload : List Nat} (h20 : m.length = 20) :
    ((tag :: m ++ payload).drop 1).take 20 = m := by
  show (m ++ payload).take 20 = m
  rw [← h20, List.take_left]

theorem frame_payload {tag : Nat} {m payload : List Nat} (h20 : m.length = 20) :
    (tag :: m ++ payload).drop 21 = payload := by
  show (m ++ payload).drop 20 = payload
  rw [← h20, List.drop_left]

theorem frame_length {tag : Nat} {m payload : List Nat} (h20 : m.length = 20) :
    (tag :: m ++ payload).length = 21 + payload.length := by
  simp [h20]
  omega

/-- A protocol subclass with no `rpc_` methods at all. -/
def regEmpty : Registry := fun _ => none

/-- The echo responder of the spec's round-trip property: its `rpc_echo`
handler returns its argument list unchanged. -/
def echoHandler : String → List MsgVal → Except String MsgVal :=
  fun _ args => .ok (.arr args)

/-- A protocol subclass defining exactly `rpc_echo := echoHandler`. -/
def regEcho : Registry :=
  fun s => if s = "echo" then some echoHandler else none

/-- Claim C9: in `send_all`, a transient would-block error (errno 11 or
10055) causes a backoff and retry within the window; any other socket error
propagates immediately as a fatal send failure; and when the window elapses
with every attempt transient, the loop exits silently — nothing is sent and
no error is raised. -/
theorem send_all_transient_fatal_window (rest : List SendResult) (e : Nat)
    (attempts : List SendResult) :
    (send_all (.err 11 :: rest) = send_all rest) ∧
    (send_all (.err 10055 :: rest) = send_all rest) ∧
    (e ≠ 11 → e ≠ 10055 → send_all (.err e :: rest) = .fatal e) ∧
    ((∀ a ∈ attempts, a = .err 11 ∨ a = .err 10055) →
      send_all attempts = .dropped) := by
  refine ⟨by simp [send_all], by simp [send_all], ?_, ?_⟩
  · intro h11 h10055
    simp [send_all, h11, h10055]
  · intro hall
    induction attempts with
    | nil => rfl
    | cons a rest2 ih =>
      have hrest := ih fun x hx => hall x (List.mem_cons_of_mem _ hx)
      rcases hall a (List.mem_cons_self _ _) with h | h <;>
        rw [h] <;> simp [send_all, hrest]

/-- Witness for C9 at concrete attempt sequences. -/
theorem send_all_transient_fatal_window_witness :
    send_all [.err 11, .err 7] = .fatal 7 ∧
    send_all [.err 10055, .err 11] = .dropped := by
  constructor
  · rw [(send_all_transient_fatal_window [.err 7] 7 []).1]
    exact (send_all_transient_fatal_window [] 7 []).2.2.1
      (by decide) (by decide)
  · exact (send_all_transient_fatal_window [] 7 [.err 10055, .err 11]).2.2.2
      (by decide)

/-- Claim C5: a datagram shorter than 22 bytes is ignored — no exception, no
change to the pending-call table, nothing sent, nothing resolved, only a log
line — and the engine afterwards processes any subsequent datagram exactly
as it would have before. -/
theorem undersized_datagram_ignored (reg : Registry) (w : World)
    (datagram : List Nat) (addr : String) (hlen : datagram.length < 22) :
    wDeliver reg w datagram addr =
      .ok { w with
              logs := w.logs ++ ["received datagram too small, ignoring"] } ∧
    ∀ dg2 addr2,
      datagramReceived reg
        ({ w with
             logs := w.logs ++ ["received datagram too small, ignoring"] }).proto
        dg2 addr2 =
      datagramReceived reg w.proto dg2 addr2 := by
  constructor
  · rw [wDeliver, datagramReceived, if_pos hlen]
    simp only [applyEffects_cons, applyEffects_nil, applyEffect_logMsg]
  · intro dg2 addr2
    rfl

/-- Witness for C5: a 10-byte datagram against a fresh engine. -/
theorem undersized_datagram_ignored_witness :
    wDeliver regEmpty (World.init 5) [0, 1, 2, 3, 4, 5, 6, 7, 8, 9] "peer" =
      .ok { World.init 5 with
              logs := ["received datagram too small, ignoring"] } ∧
    ∀ dg2 addr2,
      datagramReceived regEmpty
        ({ World.init 5 with
             logs := ["received datagram too small, ignoring"] }).proto dg2 addr2 =
      datagramReceived regEmpty (World.init 5).proto dg2 addr2 := by
  have h := undersized_datagram_ignored regEmpty (World.init 5)
    [0, 1, 2, 3, 4, 5, 6, 7, 8, 9] "peer" (by decide)
  exact ⟨by rw [h.1]; rfl, h.2⟩

/-- Claim C6: a datagram of at least 22 bytes whose tag byte is neither the
request tag 0x02 nor the response tag 0x03 is dropped with only a log line —
no error surfaces to any caller and nothing else happens; payload decoding is
not validated at this framing layer — when the payload fails to decode, the
decode error escapes one level up (to the reactor driving the engine), for
any tag. -/
theorem unknown_tag_dropped (reg : Registry) (st : ProtoState)
    (datagram : List Nat) (addr : String) (hlen : 22 ≤ datagram.length)
    (h2 : datagram.take 1 ≠ [2]) (h3 : datagram.take 1 ≠ [3]) :
    (∀ v, unpackb (datagram.drop 21) = some v →
      datagramReceived reg st datagram addr =
        .ok (st, [.logMsg "Received unknown message, ignoring"])) ∧
    (unpackb (datagram.drop 21) = none →
      datagramReceived reg st datagram addr = .error .decodeError) := by
  constructor
  · intro v hv
    rw [datagramReceived, if_neg (by omega), hv]
    simp only []
    rw [if_neg h2, if_neg h3]
  · intro hv
    rw [datagramReceived, if_neg (by omega), hv]

/-- Witness for C6: tag byte 7 with a decodable payload is silently dropped;
tag byte 7 with an undecodable payload raises a decode error. -/
theorem unknown_tag_dropped_witness :
    datagramReceived regEmpty (World.init 5).proto
      (7 :: List.replicate 20 0 ++ [0xc0]) "peer" =
      .ok ((World.init 5).proto,
        [.logMsg "Received unknown message, ignoring"]) ∧
    datagramReceived regEmpty (World.init 5).proto
      (7 :: List.replicate 20 0 ++ [0xc1]) "peer" = .error .decodeError := by
  constructor
  · exact (unknown_tag_dropped regEmpty (World.init 5).proto
      (7 :: List.replicate 20 0 ++ [0xc0]) "peer" (by decide) (by decide)
      (by decide)).1 .nil (by decide)
  · exact (unknown_tag_dropped regEmpty (World.init 5).proto
      (7 :: List.replicate 20 0 ++ [0xc1]) "peer" (by decide) (by decide)
      (by decide)).2 (by decide)

/-- Claim C4: an outbound call whose encoded `[name, args]` payload exceeds
8192 bytes raises `MalformedMessage` synchronously to the caller — the
exception propagates before any datagram is sent and before any pending
entry or timeout is created, so the world is untouched; a payload of at most
8192 bytes raises no such error and the call proceeds. -/
theorem payload_size_guard (w : World) (name addr : String)
    (args : List MsgVal) (msgID : MsgID) :
    (8192 < (packb (.arr [.str name, .arr args])).length →
      wCall w name addr args msgID =
        .error (.malformedMessage
          "Total length of function name and arguments cannot exceed 8K")) ∧
    ((packb (.arr [.str name, .arr args])).length ≤ 8192 →
      ∃ w' d, wCall w name addr args msgID = .ok (w', d)) := by
  constructor
  · intro hbig
    rw [wCall, callRemote, if_pos (by omega)]
  · intro hsmall
    rw [wCall, callRemote, if_neg (by omega)]
    exact ⟨_, _, rfl⟩

theorem binHeader_length_med {n : Nat} (h1 : 256 ≤ n) (h2 : n < 65536) :
    (binHeader n).length = 3 := by
  rw [binHeader, if_neg (by omega), if_pos (by omega)]
  rfl

theorem bigPayload_length :
    (packb (MsgVal.arr [.str "f", .arr [.bin (List.replicate 9000 0)]])).length
      = 9007 := by
  have hf : "f".length = 1 := by decide
  simp only [packb, packList, List.length_append, List.append_nil,
    List.length_replicate, hf]
  rw [binHeader_length_med (by omega) (by omega)]
  norm_num [arrHeader, strHeader, beBytes]

/-- Witness for C4: a 9007-byte payload is rejected synchronously with the
world untouched; the 9-byte echo payload goes through. -/
theorem payload_size_guard_witness :
    wCall (World.init 5) "f" "peer" [.bin (List.replicate 9000 0)]
        (List.replicate 20 0) =
      .error (.malformedMessage
        "Total length of function name and arguments cannot exceed 8K") ∧
    ∃ w' d, wCall (World.init 5) "echo" "peer" [.str "x"]
        (List.replicate 20 0) = .ok (w', d) := by
  constructor
  · exact (payload_size_guard (World.init 5) "f" "peer"
      [.bin (List.replicate 9000 0)] (List.replicate 20 0)).1
      (by rw [bigPayload_length]; norm_num)
  · exact (payload_size_guard (World.init 5) "echo" "peer" [.str "x"]
      (List.replicate 20 0)).2 (by decide)

theorem payload_length_pos {payload : List Nat} {v : MsgVal}
    (h : unpackb payload = some v) : 1 ≤ payload.length := by
  have hne := unpackb_ne_nil h
  cases payload with
  | nil => exact absurd rfl hne
  | cons a l => simp

/-- Claim C8: a well-formed request frame naming a method with no registered
handler is logged and dropped — the engine returns normally, mutates nothing
and emits no send effect, so no response frame of any kind leaves the engine
and the remote caller can only time out. -/
theorem unknown_method_dropped (reg : Registry) (st : ProtoState)
    (addr : String) (m payload : List Nat) (funcname args : MsgVal)
    (h20 : m.length = 20)
    (hdec : unpackb payload = some (.arr [funcname, args]))
    (hreg : reg (pyStr funcname) = none) :
    datagramReceived reg st (2 :: m ++ payload) addr =
      .ok (st, [.logErr "no callable method; ignoring request"]) := by
  have hplen := payload_length_pos hdec
  have htag : List.take 1 (2 :: m ++ payload) = [2] := rfl
  rw [datagramReceived, if_neg (by rw [frame_length h20]; omega),
    frame_payload h20, hdec]
  simp only []
  rw [if_pos htag, frame_msgID h20, acceptRequest, hreg]

/-- Witness for C8: a request naming `nope` against an engine with no
handlers is logged and dropped with no response. -/
theorem unknown_method_dropped_witness :
    datagramReceived regEmpty (World.init 5).proto
      (2 :: List.replicate 20 0 ++ packb (.arr [.str "nope", .arr []])) "peer" =
      .ok ((World.init 5).proto,
        [.logErr "no callable method; ignoring request"]) :=
  unknown_method_dropped regEmpty (World.init 5).proto "peer"
    (List.replicate 20 0) (packb (.arr [.str "nope", .arr []]))
    (.str "nope") (.arr []) (by decide) (by decide) rfl

/-- Python `isinstance(data, list) and len(data) == 2` on a decoded value:
the only shape check `_acceptRequest` performs. -/
def isTwoList : MsgVal → Bool
  | .arr [_, _] => true
  | _ => false

/-- The spec's RequestEnvelope invariant: exactly two elements, the second
itself an ordered sequence (msgpack array). -/
def requestEnvelopeOk : MsgVal → Bool
  | .arr [_, .arr _] => true
  | _ => false

/-- Counterexample for C7: the request payload `["x", 5]` decodes to a
two-element shape whose second element is NOT an ordered sequence — the
claim requires a synchronous malformed-request error — yet the engine (with
no handler named `x`) raises nothing and sends nothing: it logs and drops
the request through the unknown-method path. -/
theorem malformed_request_counterexample :
    unpackb ((2 :: (List.replicate 20 0 : List Nat) ++
        packb (.arr [.str "x", .int 5])).drop 21) =
      some (.arr [.str "x", .int 5]) ∧
    requestEnvelopeOk (.arr [.str "x", .int 5]) = false ∧
    datagramReceived regEmpty (World.init 5).proto
      (2 :: List.replicate 20 0 ++ packb (.arr [.str "x", .int 5])) "peer" =
      .ok ((World.init 5).proto,
        [.logErr "no callable method; ignoring request"]) := by
  decide

/-- Claim C7 as amended: only a decoded request payload that is not a
two-element list is rejected at the framing layer — `_acceptRequest` raises
`MalformedMessage` synchronously to the engine's driver and no response
frame is sent (the error return carries no effects).  A two-element payload
whose second element is not a sequence passes this check. -/
theorem malformed_request_raises (reg : Registry) (st : ProtoState)
    (addr : String) (m payload : List Nat) (data : MsgVal)
    (h20 : m.length = 20) (hdec : unpackb payload = some data)
    (hshape : isTwoList data = false) :
    datagramReceived reg st (2 :: m ++ payload) addr =
      .error (.malformedMessage "Could not read packet") := by
  have hplen := payload_length_pos hdec
  have htag : List.take 1 (2 :: m ++ payload) = [2] := rfl
  rw [datagramReceived, if_neg (by rw [frame_length h20]; omega),
    frame_payload h20, hdec]
  simp only []
  rw [if_pos htag, acceptRequest.eq_def]
  split
  · rename_i funcname args2
    simp [isTwoList] at hshape
  · rfl

/-- Witness for the amended C7: payload `["x"]` (one element) raises
`MalformedMessage`. -/
theorem malformed_request_raises_witness :
    datagramReceived regEmpty (World.init 5).proto
      (2 :: List.replicate 20 0 ++ packb (.arr [.str "x"])) "peer" =
      .error (.malformedMessage "Could not read packet") :=
  malformed_request_raises regEmpty (World.init 5).proto "peer"
    (List.replicate 20 0) (packb (.arr [.str "x"])) (.arr [.str "x"])
    (by decide) (by decide) (by decide)

/-- Claim C10: every datagram the engine itself emits passes its own receive
validation — a request frame built by an outbound call is `0x02` followed by
the 20-byte correlation ID and a nonempty encoded payload (so ≥ 22 bytes),
and a response frame built for a handler result is `0x03` followed by the
20-byte correlation ID taken from the request frame and a nonempty encoded
payload. -/
theorem self_emitted_frames_wellformed :
    (∀ (w w' : World) (name addr : String) (args : List MsgVal)
        (msgID : MsgID) (d : Nat), msgID.length = 20 →
      wCall w name addr args msgID = .ok (w', d) →
      ∃ frame, w'.sends = w.sends ++ [(frame, addr)] ∧
        22 ≤ frame.length ∧ frame.take 1 = [2] ∧
        (frame.drop 1).take 20 = msgID) ∧
    (∀ (reg : Registry) (st st' : ProtoState) (datagram : List Nat)
        (addr a : String) (effs : List Effect) (data : List Nat),
      datagramReceived reg st datagram addr = .ok (st', effs) →
      .send data a ∈ effs →
      ∃ mid payload, data = 3 :: mid ++ payload ∧ mid.length = 20 ∧
        payload ≠ [] ∧ 22 ≤ data.length ∧ data.take 1 = [3] ∧
        (data.drop 1).take 20 = mid) := by
  constructor
  · intro w w' name addr args msgID d h20 hstep
    rw [wCall] at hstep
    cases hcr : callRemote w.proto name addr args msgID with
    | error e =>
      rw [hcr] at hstep
      exact absurd hstep (by simp)
    | ok res =>
      obtain ⟨st', effs, d'⟩ := res
      rw [hcr] at hstep
      obtain ⟨hst, heffs, -, -⟩ := callRemote_ok_inv hcr
      simp only [Except.ok.injEq, Prod.mk.injEq] at hstep
      refine ⟨2 :: msgID ++ packb (.arr [.str name, .arr args]), ?_, ?_, rfl,
        frame_msgID h20⟩
      · rw [← hstep.1, heffs]
        simp only [applyEffects_cons, applyEffects_nil, applyEffect_send,
          applyEffect_scheduleTimer]
      · rw [frame_length h20]
        have := packb_length_pos (.arr [.str name, .arr args])
        omega
  · intro reg st st' datagram addr a effs data hstep hmem
    rcases datagramReceived_ok_inv hstep with ⟨-, hca⟩ | ⟨d, t, v, -, -, heffs⟩
    · rcases hca with ⟨s, he⟩ | ⟨s, he⟩ | ⟨resp, hlen22, he⟩
      · rw [he] at hmem
        simp at hmem
      · rw [he] at hmem
        simp at hmem
      · rw [he] at hmem
        simp only [List.mem_singleton, Effect.send.injEq] at hmem
        have h20 : ((datagram.drop 1).take 20).length = 20 := by
          rw [List.length_take, List.length_drop]
          omega
        refine ⟨(datagram.drop 1).take 20, packb resp, hmem.1, h20,
          packb_ne_nil resp, ?_, ?_, ?_⟩
        · rw [hmem.1, frame_length h20]
          have := packb_length_pos resp
          omega
        · rw [hmem.1]
          rfl
        · rw [hmem.1, frame_msgID h20]
    · rw [heffs] at hmem
      simp at hmem

/-- Witness for C10: the echo call's request frame, and the echo responder's
response frame, both check out concretely. -/
theorem self_emitted_frames_wellformed_witness :
    (∃ frame,
      ({ World.init 5 with
           proto := { waitTimeout := 5,
                      outstanding := [(List.replicate 20 0, 0, 0)],
                      nextDeferred := 1, nextTimer := 1 },
           timers := [(0, List.replicate 20 0)],
           sends := [(2 :: List.replicate 20 0 ++
             packb (.arr [.str "echo", .arr [.str "x"]]), "B")] } : World).sends =
        (World.init 5).sends ++ [(frame, "B")] ∧
      22 ≤ frame.length ∧ frame.take 1 = [2] ∧
      (frame.drop 1).take 20 = List.replicate 20 0) ∧
    (∃ mid payload,
      3 :: (List.replicate 20 0 : List Nat) ++ packb (.arr [.str "x"]) =
        3 :: mid ++ payload ∧ mid.length = 20 ∧ payload ≠ [] ∧
      22 ≤ (3 :: (List.replicate 20 0 : List Nat) ++ packb (.arr [.str "x"])).length ∧
      (3 :: (List.replicate 20 0 : List Nat) ++ packb (.arr [.str "x"])).take 1 = [3] ∧
      ((3 :: (List.replicate 20 0 : List Nat) ++ packb (.arr [.str "x"])).drop 1).take 20 = mid) := by
  constructor
  · exact self_emitted_frames_wellformed.1 (World.init 5) _ "echo" "B"
      [.str "x"] (List.replicate 20 0) 0 (by decide) (by decide)
  · exact self_emitted_frames_wellformed.2 regEcho (World.init 5).proto
      (World.init 5).proto
      (2 :: List.replicate 20 0 ++ packb (.arr [.str "echo", .arr [.str "x"]]))
      "A" "A" [.send (3 :: List.replicate 20 0 ++ packb (.arr [.str "x"])) "A"]
      (3 :: List.replicate 20 0 ++ packb (.arr [.str "x"]))
      (by decide) (by decide)

/-- Claim C1: an outbound `echo` call with argument list `["x"]` sends a
request frame; a responder whose registered `rpc_echo` handler returns its
input handles that frame and sends back a response frame carrying the same
20-byte correlation ID at offset 1; delivering that response to the caller
resolves the call's pending-result handle with `(true, ["x"])`. -/
theorem echo_round_trip (w : World) (addrA addrB : String) (msgID : MsgID)
    (h20 : msgID.length = 20) :
    ∃ w',
      wCall w "echo" addrB [.str "x"] msgID = .ok (w', w.proto.nextDeferred) ∧
      w'.sends = w.sends ++
        [(2 :: msgID ++ packb (.arr [.str "echo", .arr [.str "x"]]), addrB)] ∧
      (∀ stB : ProtoState,
        datagramReceived regEcho stB
          (2 :: msgID ++ packb (.arr [.str "echo", .arr [.str "x"]])) addrA =
        .ok (stB, [.send (3 :: msgID ++ packb (.arr [.str "x"])) addrA])) ∧
      ((3 :: msgID ++ packb (.arr [.str "x"])).drop 1).take 20 =
        ((2 :: msgID ++ packb (.arr [.str "echo", .arr [.str "x"]])).drop 1).take 20 ∧
      (∀ regA : Registry, ∃ w2,
        wDeliver regA w' (3 :: msgID ++ packb (.arr [.str "x"])) addrA =
          .ok w2 ∧
        w2.resolutions = w'.resolutions ++
          [(w.proto.nextDeferred, true, some (.arr [.str "x"]))]) := by
  have hsmall : ¬ 8192 < (packb (.arr [.str "echo", .arr [.str "x"]])).length := by
    decide
  refine ⟨{ proto := { waitTimeout := w.proto.waitTimeout,
                       outstanding := insertO w.proto.outstanding msgID
                         (w.proto.nextDeferred, w.proto.nextTimer),
                       nextDeferred := w.proto.nextDeferred + 1,
                       nextTimer := w.proto.nextTimer + 1 },
            timers := w.timers ++ [(w.proto.nextTimer, msgID)],
            resolutions := w.resolutions,
            sends := w.sends ++
              [(2 :: msgID ++ packb (.arr [.str "echo", .arr [.str "x"]]), addrB)],
            logs := w.logs }, ?_, rfl, ?_, ?_, ?_⟩
  · rw [wCall, callRemote, if_neg (by omega)]
    simp only [applyEffects_cons, applyEffects_nil, applyEffect_send,
      applyEffect_scheduleTimer]
  · intro stB
    have hdec : unpackb (packb (.arr [.str "echo", .arr [.str "x"]])) =
        some (.arr [.str "echo", .arr [.str "x"]]) := by decide
    have htag : List.take 1
        (2 :: msgID ++ packb (.arr [.str "echo", .arr [.str "x"]])) = [2] := rfl
    rw [datagramReceived, if_neg (by rw [frame_length h20]; decide),
      frame_payload h20, hdec]
    simp only []
    rw [if_pos htag, frame_msgID h20, acceptRequest]
    rfl
  · rw [frame_msgID h20, frame_msgID h20]
  · intro regA
    have hdec : unpackb (packb (.arr [.str "x"])) =
        some (.arr [.str "x"]) := by decide
    have htag2 : List.take 1 (3 :: msgID ++ packb (.arr [.str "x"])) ≠ [2] := by
      intro hc
      exact absurd (List.head_eq_of_cons_eq hc) (by decide)
    have htag3 : List.take 1 (3 :: msgID ++ packb (.arr [.str "x"])) = [3] := rfl
    refine ⟨{ proto := { waitTimeout := w.proto.waitTimeout,
                         outstanding := eraseO (insertO w.proto.outstanding msgID
                           (w.proto.nextDeferred, w.proto.nextTimer)) msgID,
                         nextDeferred := w.proto.nextDeferred + 1,
                         nextTimer := w.proto.nextTimer + 1 },
              timers := (w.timers ++ [(w.proto.nextTimer, msgID)]).filter
                fun p => decide (p.1 ≠ w.proto.nextTimer),
              resolutions := w.resolutions ++
                [(w.proto.nextDeferred, true, some (.arr [.str "x"]))],
              sends := w.sends ++
                [(2 :: msgID ++ packb (.arr [.str "echo", .arr [.str "x"]]), addrB)],
              logs := w.logs }, ?_, rfl⟩
    · rw [wDeliver, datagramReceived, if_neg (by rw [frame_length h20]; decide),
        frame_payload h20, hdec]
      simp only []
      rw [if_neg htag2, if_pos htag3, frame_msgID h20]
      have hlk : lookupO (insertO w.proto.outstanding msgID
          (w.proto.nextDeferred, w.proto.nextTimer)) msgID =
          some (w.proto.nextDeferred, w.proto.nextTimer) :=
        lookupO_insertO_self _ _ _
      rw [acceptResponse_some hlk]
      simp only [applyEffects_cons, applyEffects_nil,
        applyEffect_cancelTimer, applyEffect_resolve]

/-- Witness for C1 at a concrete correlation ID. -/
theorem echo_round_trip_witness :
    ∃ w',
      wCall (World.init 5) "echo" "B" [.str "x"] (List.replicate 20 0) =
        .ok (w', (World.init 5).proto.nextDeferred) ∧
      w'.sends = (World.init 5).sends ++
        [(2 :: List.replicate 20 0 ++
            packb (.arr [.str "echo", .arr [.str "x"]]), "B")] ∧
      (∀ stB : ProtoState,
        datagramReceived regEcho stB
          (2 :: List.replicate 20 0 ++
            packb (.arr [.str "echo", .arr [.str "x"]])) "A" =
        .ok (stB, [.send (3 :: List.replicate 20 0 ++
          packb (.arr [.str "x"])) "A"])) ∧
      ((3 :: (List.replicate 20 0 : List Nat) ++
          packb (.arr [.str "x"])).drop 1).take 20 =
        ((2 :: (List.replicate 20 0 : List Nat) ++
          packb (.arr [.str "echo", .arr [.str "x"]])).drop 1).take 20 ∧
      (∀ regA : Registry, ∃ w2,
        wDeliver regA w' (3 :: List.replicate 20 0 ++
          packb (.arr [.str "x"])) "A" = .ok w2 ∧
        w2.resolutions = w'.resolutions ++
          [((World.init 5).proto.nextDeferred, true,
            some (.arr [.str "x"]))]) :=
  echo_round_trip (World.init 5) "A" "B" (List.replicate 20 0) (by decide)

theorem deliver_response_unmatched {reg : Registry} (w : World) {m : MsgID}
    {payload : List Nat} {v : MsgVal} (addr : String) (h20 : m.length = 20)
    (hv : unpackb payload = some v)
    (hl : lookupO w.proto.outstanding m = none) :
    wDeliver reg w (3 :: m ++ payload) addr =
      .ok { w with logs := w.logs ++ ["received unknown message; ignoring"] } := by
  have hplen := payload_length_pos hv
  have htag2 : List.take 1 (3 :: m ++ payload) ≠ [2] := by
    intro hc
    exact absurd (List.head_eq_of_cons_eq hc) (by decide)
  have htag3 : List.take 1 (3 :: m ++ payload) = [3] := rfl
  rw [wDeliver, datagramReceived, if_neg (by rw [frame_length h20]; omega),
    frame_payload h20, hv]
  simp only []
  rw [if_neg htag2, if_pos htag3, frame_msgID h20, acceptResponse_none hl]
  simp only [applyEffects_cons, applyEffects_nil, applyEffect_logErr]

theorem deliver_response_matched {reg : Registry} (w : World) {m : MsgID}
    {payload : List Nat} {v : MsgVal} {d t : Nat} (addr : String)
    (h20 : m.length = 20) (hv : unpackb payload = some v)
    (hl : lookupO w.proto.outstanding m = some (d, t)) :
    wDeliver reg w (3 :: m ++ payload) addr =
      .ok { proto := { waitTimeout := w.proto.waitTimeout,
                       outstanding := eraseO w.proto.outstanding m,
                       nextDeferred := w.proto.nextDeferred,
                       nextTimer := w.proto.nextTimer },
            timers := w.timers.filter fun p => decide (p.1 ≠ t),
            resolutions := w.resolutions ++ [(d, true, some v)],
            sends := w.sends, logs := w.logs } := by
  have hplen := payload_length_pos hv
  have htag2 : List.take 1 (3 :: m ++ payload) ≠ [2] := by
    intro hc
    exact absurd (List.head_eq_of_cons_eq hc) (by decide)
  have htag3 : List.take 1 (3 :: m ++ payload) = [3] := rfl
  rw [wDeliver, datagramReceived, if_neg (by rw [frame_length h20]; omega),
    frame_payload h20, hv]
  simp only []
  rw [if_neg htag2, if_pos htag3, frame_msgID h20, acceptResponse_some hl]
  simp only [applyEffects_cons, applyEffects_nil, applyEffect_cancelTimer,
    applyEffect_resolve]

theorem wFire_noop {w : World} {t : Nat}
    (hfind : w.timers.find? (fun p => decide (p.1 = t)) = none) :
    wFire w t = .ok w := by
  rw [wFire, hfind]

theorem wFire_fired {w : World} {t : Nat} {m : MsgID} {d : Nat}
    (hfind : w.timers.find? (fun p => decide (p.1 = t)) = some (t, m))
    (hm : lookupO w.proto.outstanding m = some (d, t)) :
    wFire w t = .ok
      { proto := { waitTimeout := w.proto.waitTimeout,
                   outstanding := eraseO w.proto.outstanding m,
                   nextDeferred := w.proto.nextDeferred,
                   nextTimer := w.proto.nextTimer },
        timers := w.timers.filter fun p => decide (p.1 ≠ t),
        resolutions := w.resolutions ++ [(d, false, none)],
        sends := w.sends,
        logs := w.logs ++ ["Did not received reply within the wait window"] } := by
  rw [wFire, hfind]
  simp only []
  rw [timeoutFire_some hm]
  simp only [applyEffects_cons, applyEffects_nil, applyEffect_logErr,
    applyEffect_resolve]

theorem find_timer_of_nodup {T : List (Nat × MsgID)} {t : Nat} {m : MsgID}
    (hN : (T.map fun p => p.1).Nodup) (hmem : (t, m) ∈ T) :
    T.find? (fun p => decide (p.1 = t)) = some (t, m) := by
  induction T with
  | nil => simp at hmem
  | cons x rest ih =>
    simp only [List.map_cons, List.nodup_cons] at hN
    rcases List.mem_cons.mp hmem with h1 | h1
    · rw [← h1]
      exact List.find?_cons_of_pos _ (by simp)
    · have hx : ¬ x.1 = t := by
        intro hc
        exact hN.1 (List.mem_map.mpr ⟨(t, m), h1, hc.symm⟩)
      rw [List.find?_cons_of_neg _ (by simpa using hx)]
      exact ih hN.2 h1

/-- Claim C2: in any reachable engine state, a correlation ID with an
outstanding pending call is resolved by exactly one of response-match and
timeout-fire.  A matching response resolves the deferred with the decoded
payload and removes the table entry in the same step, after which the call's
timer has been cancelled, so firing it is a no-op — same world, no crash, no
second resolution (the resolution history never repeats a deferred).  A
timeout-fire resolves the deferred with `(false, none)` and removes the
entry in the same step, again with no repeated deferred in the history. -/
theorem exactly_once_resolution {reg : Registry} {w : World}
    (hr : Reachable reg w) {m : MsgID} {d t : Nat}
    (hm : lookupO w.proto.outstanding m = some (d, t)) :
    (∀ payload addr v, unpackb payload = some v →
      ∃ w', wDeliver reg w (3 :: m ++ payload) addr = .ok w' ∧
        w'.resolutions = w.resolutions ++ [(d, true, some v)] ∧
        lookupO w'.proto.outstanding m = none ∧
        (w'.resolutions.map fun r => r.1).Nodup ∧
        wFire w' t = .ok w') ∧
    (∃ w', wFire w t = .ok w' ∧
      w'.resolutions = w.resolutions ++ [(d, false, none)] ∧
      lookupO w'.proto.outstanding m = none ∧
      (w'.resolutions.map fun r => r.1).Nodup) := by
  have hInv := reachable_inv hr
  have hmem : (m, (d, t)) ∈ w.proto.outstanding := lookupO_some_mem hm
  have hent := hInv.2.2.2.2.1 _ hmem
  have h20 : m.length = 20 := hent.1
  have htm : (t, m) ∈ w.timers := hent.2.1
  constructor
  · intro payload addr v hv
    have hdel := @deliver_response_matched reg w m payload v d t addr h20 hv hm
    refine ⟨_, hdel, rfl, lookupO_eraseO_self _ _, ?_, ?_⟩
    · exact (engineInv_wDeliver hInv hdel).2.2.2.1
    · exact wFire_noop (List.find?_eq_none.mpr fun p hp => by
        simpa using (List.mem_filter.mp hp).2)
  · have hfind := find_timer_of_nodup hInv.2.2.1 htm
    have hfire := wFire_fired hfind hm
    refine ⟨_, hfire, rfl, lookupO_eraseO_self _ _, ?_⟩
    exact (engineInv_wFire hInv hfire).2.2.2.1

/-- The world after one outbound call `f()` to peer `B` with the all-zero
correlation ID against a fresh engine (witness state for C2 and C3). -/
def wAfterCall : World :=
  { proto := { waitTimeout := 5,
               outstanding := [(List.replicate 20 0, 0, 0)],
               nextDeferred := 1, nextTimer := 1 },
    timers := [(0, List.replicate 20 0)],
    resolutions := [],
    sends := [(2 :: List.replicate 20 0 ++ packb (.arr [.str "f", .arr []]), "B")],
    logs := [] }

/-- Witness for C2 at the concrete one-call world: the response path and the
timeout path each resolve deferred 0 exactly once. -/
theorem exactly_once_resolution_witness :
    (∃ w', wDeliver regEmpty wAfterCall
        (3 :: List.replicate 20 0 ++ packb .nil) "B" = .ok w' ∧
      w'.resolutions = wAfterCall.resolutions ++ [(0, true, some .nil)] ∧
      lookupO w'.proto.outstanding (List.replicate 20 0) = none ∧
      (w'.resolutions.map fun r => r.1).Nodup ∧
      wFire w' 0 = .ok w') ∧
    (∃ w', wFire wAfterCall 0 = .ok w' ∧
      w'.resolutions = wAfterCall.resolutions ++ [(0, false, none)] ∧
      lookupO w'.proto.outstanding (List.replicate 20 0) = none ∧
      (w'.resolutions.map fun r => r.1).Nodup) := by
  have hstep : wCall (World.init 5) "f" "B" [] (List.replicate 20 0) =
      .ok (wAfterCall, 0) := by decide
  have hr : Reachable regEmpty wAfterCall :=
    Reachable.call (Reachable.init 5) (by decide) (by decide) hstep
  have h := @exactly_once_resolution regEmpty wAfterCall hr
    (List.replicate 20 0) 0 0 (by decide)
  exact ⟨h.1 (packb .nil) "B" .nil (by decide), h.2⟩

/-- Claim C3: in any reachable engine state, when the timeout for an
outstanding call fires, the pending-result handle is resolved with
`(false, none)` and the entry is removed from the table in the same step; a
later response frame carrying the same correlation ID is then dropped as
unmatched — the engine state, send history and resolution history are
untouched; only a log line is appended. -/
theorem timeout_then_stray_response_dropped {reg : Registry} {w : World}
    (hr : Reachable reg w) {m : MsgID} {d t : Nat}
    (hm : lookupO w.proto.outstanding m = some (d, t)) :
    ∃ w', wFire w t = .ok w' ∧
      w'.resolutions = w.resolutions ++ [(d, false, none)] ∧
      lookupO w'.proto.outstanding m = none ∧
      (∀ payload addr v, unpackb payload = some v →
        wDeliver reg w' (3 :: m ++ payload) addr =
          .ok { w' with
                  logs := w'.logs ++ ["received unknown message; ignoring"] }) := by
  have hInv := reachable_inv hr
  have hmem : (m, (d, t)) ∈ w.proto.outstanding := lookupO_some_mem hm
  have hent := hInv.2.2.2.2.1 _ hmem
  have h20 : m.length = 20 := hent.1
  have htm : (t, m) ∈ w.timers := hent.2.1
  have hfind := find_timer_of_nodup hInv.2.2.1 htm
  have hfire := wFire_fired hfind hm
  refine ⟨_, hfire, rfl, lookupO_eraseO_self _ _, ?_⟩
  intro payload addr v hv
  exact @deliver_response_unmatched reg _ m payload v addr h20 hv (lookupO_eraseO_self _ _)

/-- Witness for C3 at the concrete one-call world. -/
theorem timeout_then_stray_response_dropped_witness :
    ∃ w', wFire wAfterCall 0 = .ok w' ∧
      w'.resolutions = wAfterCall.resolutions ++ [(0, false, none)] ∧
      lookupO w'.proto.outstanding (List.replicate 20 0) = none ∧
      (∀ payload addr v, unpackb payload = some v →
        wDeliver regEmpty w' (3 :: List.replicate 20 0 ++ payload) addr =
          .ok { w' with
                  logs := w'.logs ++ ["received unknown message; ignoring"] }) := by
  have hstep : wCall (World.init 5) "f" "B" [] (List.replicate 20 0) =
      .ok (wAfterCall, 0) := by decide
  have hr : Reachable regEmpty wAfterCall :=
    Reachable.call (Reachable.init 5) (by decide) (by decide) hstep
  exact @timeout_then_stray_response_dropped regEmpty wAfterCall hr
    (List.replicate 20 0) 0 0 (by decide)
